import Mathlib

/-!
Verification of the NMIS-EcoPass mapping/transformation core.

This file shallowly embeds the parts of the repository that the checked
properties are about:

* `src/NMIS_Ecopass/mapping/engine.py` — `_set_nested`, the transformer closure
  built by `MappingEngine._build_transformer`, and the per-record loop of
  `MappingEngine.execute`;
* `src/NMIS_Ecopass/mapping/transforms.py` — `TransformRegistry.apply` and the
  built-in `int` and `template` transforms;
* `src/NMIS_Ecopass/connectors/isa95.py` — `ISA95Connector._parse_recursive`,
  `_find_elements` and the record-yielding part of `parse`;
* `src/NMIS_Ecopass/core/bridge.py` — the validation step of `DPPBridge.transform`;
* `src/NMIS_Ecopass/exporters/jsonld.py` — the argument-mutating part of
  `JSONLDExporter.export`.

Python values are modelled by the inductive type `Val` (`None`, strings,
integers, and insertion-ordered dicts).  Python dicts are insertion-ordered
association lists without duplicate keys; `dictSet` models `d[k] = v`
(replace in place, else append) and `dictGet` models `d.get(k)`.
Raised exceptions are modelled by `Except PyExc`; the message text of
exceptions raised by the repository's own code is reproduced exactly, while
messages of interpreter-raised exceptions (`TypeError` from assigning into a
non-dict, etc.) are descriptive stand-ins — no theorem depends on those texts.
I/O (file loading, YAML parsing, the XML text parser) is elided: functions
take the already-materialized record list or element tree as input, exactly
the data the corresponding Python code iterates over.
-/

set_option autoImplicit false

namespace NMISEcopass

/-- Python value: `None`, `str`, `int`, or an insertion-ordered `dict`
(association list).  This covers every value the checked code paths touch. -/
inductive Val where
  | vnull : Val
  | vstr (s : String) : Val
  | vint (n : Int) : Val
  | vobj (fields : List (String × Val)) : Val
  deriving Repr

/-- Python exception, identified by class and message. -/
inductive PyExc where
  | typeError (msg : String) : PyExc
  | valueError (msg : String) : PyExc
  | overflowError (msg : String) : PyExc
  | keyError (msg : String) : PyExc
  | indexError (msg : String) : PyExc
  | attributeError (msg : String) : PyExc
  | mappingError (msg : String) : PyExc
  | connectorError (msg : String) : PyExc
  deriving Repr, DecidableEq

/-- `str(e)` of an exception: its message (all the modelled exception classes
are plain `Exception` subclasses whose `str` is the message they were
constructed with, see `core/exception.py`). -/
def PyExc.str : PyExc → String
  | .typeError m => m
  | .valueError m => m
  | .overflowError m => m
  | .keyError m => m
  | .indexError m => m
  | .attributeError m => m
  | .mappingError m => m
  | .connectorError m => m

instance {ε α : Type} [DecidableEq ε] [DecidableEq α] : DecidableEq (Except ε α) := fun a b =>
  match a, b with
  | .ok x, .ok y =>
    if h : x = y then .isTrue (by rw [h]) else .isFalse (by intro hc; injection hc; exact h ‹_›)
  | .error x, .error y =>
    if h : x = y then .isTrue (by rw [h]) else .isFalse (by intro hc; injection hc; exact h ‹_›)
  | .ok _, .error _ => .isFalse (fun hc => Except.noConfusion hc)
  | .error _, .ok _ => .isFalse (fun hc => Except.noConfusion hc)

section Dict

variable {α : Type}

/-- Python `d.get(k)` on an insertion-ordered dict. -/
def dictGet (fs : List (String × α)) (k : String) : Option α :=
  match fs with
  | [] => none
  | (k', v) :: rest => if k' = k then some v else dictGet rest k

/-- Python `d[k] = v`: replace the value in place if the key is present,
append the pair otherwise. -/
def dictSet (fs : List (String × α)) (k : String) (v : α) : List (String × α) :=
  match fs with
  | [] => [(k, v)]
  | (k', v') :: rest => if k' = k then (k', v) :: rest else (k', v') :: dictSet rest k v

end Dict

mutual

/-- Decidable structural equality on `Val` (Python `==` on the modelled
fragment: dicts are compared here including field order; theorems that need
order-insensitive dict equality say so via lookups instead). -/
def Val.decEq : (a b : Val) → Decidable (a = b)
  | .vnull, .vnull => .isTrue rfl
  | .vnull, .vstr _ => .isFalse (fun h => Val.noConfusion h)
  | .vnull, .vint _ => .isFalse (fun h => Val.noConfusion h)
  | .vnull, .vobj _ => .isFalse (fun h => Val.noConfusion h)
  | .vstr _, .vnull => .isFalse (fun h => Val.noConfusion h)
  | .vstr a, .vstr b =>
    match String.decEq a b with
    | .isTrue h => .isTrue (by rw [h])
    | .isFalse h => .isFalse (fun hc => h (by injection hc))
  | .vstr _, .vint _ => .isFalse (fun h => Val.noConfusion h)
  | .vstr _, .vobj _ => .isFalse (fun h => Val.noConfusion h)
  | .vint _, .vnull => .isFalse (fun h => Val.noConfusion h)
  | .vint _, .vstr _ => .isFalse (fun h => Val.noConfusion h)
  | .vint a, .vint b =>
    match Int.decEq a b with
    | .isTrue h => .isTrue (by rw [h])
    | .isFalse h => .isFalse (fun hc => h (by injection hc))
  | .vint _, .vobj _ => .isFalse (fun h => Val.noConfusion h)
  | .vobj _, .vnull => .isFalse (fun h => Val.noConfusion h)
  | .vobj _, .vstr _ => .isFalse (fun h => Val.noConfusion h)
  | .vobj _, .vint _ => .isFalse (fun h => Val.noConfusion h)
  | .vobj fs, .vobj gs =>
    match Val.decEqFields fs gs with
    | .isTrue h => .isTrue (by rw [h])
    | .isFalse h => .isFalse (fun hc => h (by injection hc))

/-- Decidable equality on dict field lists. -/
def Val.decEqFields : (fs gs : List (String × Val)) → Decidable (fs = gs)
  | [], [] => .isTrue rfl
  | [], _ :: _ => .isFalse (fun h => List.noConfusion h)
  | _ :: _, [] => .isFalse (fun h => List.noConfusion h)
  | (k, v) :: fs, (k', v') :: gs =>
    match String.decEq k k', Val.decEq v v', Val.decEqFields fs gs with
    | .isTrue h1, .isTrue h2, .isTrue h3 => .isTrue (by rw [h1, h2, h3])
    | .isFalse h1, _, _ => .isFalse (fun hc => by
        injection hc with hp hrest
        exact h1 (congrArg Prod.fst hp))
    | _, .isFalse h2, _ => .isFalse (fun hc => by
        injection hc with hp hrest
        exact h2 (congrArg Prod.snd hp))
    | _, _, .isFalse h3 => .isFalse (fun hc => by
        injection hc with hp hrest
        exact h3 hrest)

end

instance : DecidableEq Val := Val.decEq

/-- `_set_nested` from `mapping/engine.py`, on the already-split key list
(`keys = path.split('.')`).  Walking `keys[:-1]`: a missing key is populated
with a fresh `{}`; descending into—or finally assigning into—a non-dict value
raises `TypeError` (Python raises `TypeError` on all these paths: item
assignment on a non-dict, `in` / indexing on a non-container). -/
def setNestedKeys : Val → List String → Val → Except PyExc Val
  | .vobj fs, [k], v => .ok (.vobj (dictSet fs k v))
  | .vobj fs, k :: k2 :: rest, v =>
    let child := (dictGet fs k).getD (.vobj [])
    match setNestedKeys child (k2 :: rest) v with
    | .ok c => .ok (.vobj (dictSet fs k c))
    | .error e => .error e
  | _, [], _ => .error (.typeError "empty key list")
  | _, _ :: _, _ => .error (.typeError "cannot assign into a non-dict value")

/-- Python `s.split(sep)` for a single-character separator, on a char list
with an accumulator for the current piece. -/
def splitOnCharAux (sep : Char) : List Char → List Char → List String
  | [], acc => [String.mk acc.reverse]
  | c :: cs, acc =>
    if c = sep then String.mk acc.reverse :: splitOnCharAux sep cs []
    else splitOnCharAux sep cs (c :: acc)

/-- Python `s.split(sep)` for a single-character separator (`"".split(sep)`
is `[""]`, adjacent separators produce empty pieces — same as CPython). -/
def splitOnChar (sep : Char) (s : String) : List String :=
  splitOnCharAux sep s.toList []

/-- `_set_nested(data, path, value)`: split the dot path and write. -/
def setNested (data : Val) (path : String) (value : Val) : Except PyExc Val :=
  setNestedKeys data (splitOnChar '.' path) value

/-- Nested lookup along a key list (specification helper: reads the value a
dot path points at, `none` when the path is absent). -/
def getNestedKeys : Val → List String → Option Val
  | v, [] => some v
  | .vobj fs, k :: rest =>
    match dictGet fs k with
    | some c => getNestedKeys c rest
    | none => none
  | _, _ :: _ => none

mutual

/-- Python `str(value)` for the modelled values.  For dicts this is the
`repr`-based rendering; string-escaping corner cases inside `repr` of a string
are not reproduced (no theorem depends on them). -/
def pyStrOfVal : Val → String
  | .vnull => "None"
  | .vstr s => s
  | .vint n => toString n
  | .vobj fs => "\x7b" ++ pyReprFieldsStr fs ++ "\x7d"

/-- Python `repr(value)` for the modelled values. -/
def pyReprOfVal : Val → String
  | .vnull => "None"
  | .vstr s => "\x27" ++ s ++ "\x27"
  | .vint n => toString n
  | .vobj fs => "\x7b" ++ pyReprFieldsStr fs ++ "\x7d"

/-- Comma-separated `'key': repr(value)` rendering of dict fields. -/
def pyReprFieldsStr : List (String × Val) → String
  | [] => ""
  | [(k, v)] => "\x27" ++ k ++ "\x27: " ++ pyReprOfVal v
  | (k, v) :: rest => "\x27" ++ k ++ "\x27: " ++ pyReprOfVal v ++ ", " ++ pyReprFieldsStr rest

end

/-- A CPython float observed through the operations the code uses: a finite
value — kept exactly, as the fraction `num / den` with `den` a power of ten
(binary rounding of decimal literals and overflow of huge exponents to
infinity are not modelled) — an infinity, or NaN. -/
inductive PyFloat where
  | finite (num : Int) (den : ℕ) : PyFloat
  | inf : PyFloat
  | neginf : PyFloat
  | nan : PyFloat
  deriving Repr, DecidableEq

/-- Leading `+`/`-` sign: returns (isNegative, rest). -/
def parseFloatSign : List Char → Bool × List Char
  | '-' :: cs => (true, cs)
  | '+' :: cs => (false, cs)
  | cs => (false, cs)

/-- Numeric value of a digit list (most significant first). -/
def digitsVal (cs : List Char) : ℕ :=
  cs.foldl (fun a c => a * 10 + (c.toNat - 48)) 0

/-- Split a char list at the first `e`/`E`; `none` when there is none. -/
def splitOnExp : List Char → List Char × Option (List Char)
  | [] => ([], none)
  | c :: cs =>
    if c = 'e' ∨ c = 'E' then ([], some cs)
    else
      let (m, e) := splitOnExp cs
      (c :: m, e)

/-- Split a char list at the first `.`; `none` when there is none. -/
def splitOnDot : List Char → List Char × Option (List Char)
  | [] => ([], none)
  | c :: cs =>
    if c = '.' then ([], some cs)
    else
      let (m, f) := splitOnDot cs
      (c :: m, f)

/-- Python `s.strip()` (ASCII whitespace; the exotic unicode-space cases are
outside the modelled fragment and never exercised). -/
def pyStrip (s : String) : String :=
  String.mk (((s.toList.dropWhile Char.isWhitespace).reverse.dropWhile Char.isWhitespace).reverse)

/-- CPython `float(s)` for a string, on the fragment the code exercises:
optional surrounding whitespace, optional sign, then `inf`/`infinity`/`nan`
(case-insensitive) or a decimal literal `digits[.digits][(e|E)[sign]digits]`
with at least one mantissa digit.  Digit-grouping underscores, hex floats and
non-ASCII digits are outside the modelled fragment (they fail here; underscored
literals would parse in CPython).  Finite values are exact decimal fractions. -/
def pyFloatOfString (s : String) : Except PyExc PyFloat :=
  let failure : Except PyExc PyFloat :=
    .error (.valueError ("could not convert string to float: " ++ "\x27" ++ s ++ "\x27"))
  let cs := (pyStrip s).toList
  let (neg, body) := parseFloatSign cs
  let low := String.mk (body.map Char.toLower)
  if low = "inf" ∨ low = "infinity" then .ok (if neg then .neginf else .inf)
  else if low = "nan" then .ok .nan
  else
    let (mant, expPart) := splitOnExp body
    let expVal : Option Int :=
      match expPart with
      | none => some 0
      | some ecs =>
        let (eneg, edigits) := parseFloatSign ecs
        if edigits ≠ [] ∧ edigits.all Char.isDigit then
          some (if eneg then -(digitsVal edigits : Int) else (digitsVal edigits : Int))
        else none
    let (ipart, fpartOpt) := splitOnDot mant
    let fpart := fpartOpt.getD []
    if ipart.all Char.isDigit ∧ fpart.all Char.isDigit ∧ ipart ++ fpart ≠ [] then
      match expVal with
      | some e =>
        let num : Int := digitsVal (ipart ++ fpart)
        let num := if neg then -num else num
        match e with
        | .ofNat k => .ok (.finite (num * (10 : Int) ^ k) ((10 : ℕ) ^ fpart.length))
        | .negSucc k => .ok (.finite num ((10 : ℕ) ^ (fpart.length + (k + 1))))
      | none => failure
    else failure

/-- CPython `float(value)` on the modelled value types. -/
def pyFloatOfVal : Val → Except PyExc PyFloat
  | .vint n => .ok (.finite n 1)
  | .vstr s => pyFloatOfString s
  | .vnull => .error (.typeError "float() argument must be a string or a real number, not \x27NoneType\x27")
  | .vobj _ => .error (.typeError "float() argument must be a string or a real number, not \x27dict\x27")

/-- CPython `int(f)` on a float: truncation toward zero for finite values
(T-division of the exact fraction), `OverflowError` for infinities,
`ValueError` for NaN. -/
def pyIntOfFloat : PyFloat → Except PyExc Int
  | .finite num den => .ok (Int.tdiv num (Int.ofNat den))
  | .inf => .error (.overflowError "cannot convert float infinity to integer")
  | .neginf => .error (.overflowError "cannot convert float infinity to integer")
  | .nan => .error (.valueError "cannot convert float NaN to integer")

namespace TransformRegistry

/-- `TransformRegistry._to_str` (transforms.py lines 55-60):
`None` becomes `kwargs.get('default', '')`, anything else is stringified. -/
def toStr (value : Val) (kwargs : List (String × Val)) : Except PyExc Val :=
  if value = .vnull then .ok ((dictGet kwargs "default").getD (.vstr ""))
  else .ok (.vstr (pyStrOfVal value))

/-- `TransformRegistry._to_int` (transforms.py lines 62-71): `None` or `''`
yields `kwargs.get('default')`; otherwise `int(float(value))` with
`ValueError`/`TypeError` caught and replaced by the default — any other
exception (notably `OverflowError` from `int()` on an infinity) propagates. -/
def toInt (value : Val) (kwargs : List (String × Val)) : Except PyExc Val :=
  let dflt := (dictGet kwargs "default").getD .vnull
  if value = .vnull ∨ value = .vstr "" then .ok dflt
  else
    match pyFloatOfVal value with
    | .error (.valueError _) => .ok dflt
    | .error (.typeError _) => .ok dflt
    | .error e => .error e
    | .ok f =>
      match pyIntOfFloat f with
      | .ok n => .ok (.vint n)
      | .error (.valueError _) => .ok dflt
      | .error (.typeError _) => .ok dflt
      | .error e => .error e

end TransformRegistry

/-- Split a char list at the first closing brace: (field content, rest). -/
def splitAtRBrace : List Char → Option (List Char × List Char)
  | [] => none
  | c :: cs =>
    if c = '\x7d' then some ([], cs)
    else (splitAtRBrace cs).map (fun p => (c :: p.1, p.2))

/-- CPython `str.format` called with keyword arguments only, on the fragment
the repository's templates use: literal text, `\x7b\x7b`/`\x7d\x7d` escapes,
and replacement fields `\x7bname\x7d` with no conversion and no format spec.
An empty or all-digit field name asks for a positional argument — none are
passed, so CPython raises `IndexError`.  A named field absent from the keyword
arguments raises `KeyError`.  Fields carrying a conversion, a format spec, an
attribute/index suffix, or a nested brace are outside the modelled fragment
and are mapped to a `ValueError`.  The scanner consumes at least one char per
step; `fuel` (structural, instantiated to more than the template length by
`pyFormat`) only makes that evident to the termination checker and is never
exhausted. -/
def pyFormatChars (bindings : List (String × Val)) : ℕ → List Char → Except PyExc String
  | 0, _ => .error (.valueError "format scanner fuel exhausted (unreachable)")
  | _ + 1, [] => .ok ""
  | fuel + 1, c :: cs =>
    if c = '\x7b' then
      match cs with
      | [] => .error (.valueError "Single brace encountered in format string")
      | c2 :: cs2 =>
        if c2 = '\x7b' then
          match pyFormatChars bindings fuel cs2 with
          | .ok r => .ok ("\x7b" ++ r)
          | .error e => .error e
        else
          match splitAtRBrace (c2 :: cs2) with
          | none => .error (.valueError "Single brace encountered in format string")
          | some (fcs, rest) =>
            if fcs.any (fun ch => ch = '\x7b' ∨ ch = ':' ∨ ch = '!' ∨ ch = '[' ∨ ch = '.') then
              .error (.valueError "replacement field outside the modelled fragment")
            else if fcs.isEmpty ∨ fcs.all Char.isDigit then
              .error (.indexError "Replacement index out of range for positional args tuple")
            else
              match dictGet bindings (String.mk fcs) with
              | some v =>
                match pyFormatChars bindings fuel rest with
                | .ok r => .ok (pyStrOfVal v ++ r)
                | .error e => .error e
              | none => .error (.keyError (String.mk fcs))
    else if c = '\x7d' then
      match cs with
      | c2 :: cs2 =>
        if c2 = '\x7d' then
          match pyFormatChars bindings fuel cs2 with
          | .ok r => .ok ("\x7d" ++ r)
          | .error e => .error e
        else .error (.valueError "Single brace encountered in format string")
      | [] => .error (.valueError "Single brace encountered in format string")
    else
      match pyFormatChars bindings fuel cs with
      | .ok r => .ok (String.mk [c] ++ r)
      | .error e => .error e

/-- `template.format(value=..., **kwargs)` on a template string. -/
def pyFormat (t : String) (bindings : List (String × Val)) : Except PyExc String :=
  pyFormatChars bindings (t.toList.length + 1) t.toList

namespace TransformRegistry

/-- `TransformRegistry._template` (transforms.py lines 138-155): renders
`template.format(value=value, **kwargs)` where `kwargs` is the transform
config minus the `template` entry consumed by the named parameter; `KeyError`
and `ValueError` are caught and the raw template is returned; any other
exception (notably `IndexError` from a positional field) propagates.  A
non-string `template` config value has no `.format` attribute in Python. -/
def templateTr (value : Val) (config : List (String × Val)) : Except PyExc Val :=
  let kwargs := config.filter (fun p => p.1 ≠ "template")
  match (dictGet config "template").getD (.vstr "") with
  | .vstr t =>
    match pyFormat t (("value", value) :: kwargs) with
    | .ok s => .ok (.vstr s)
    | .error (.keyError _) => .ok (.vstr t)
    | .error (.valueError _) => .ok (.vstr t)
    | .error e => .error e
  | _ => .error (.attributeError "object has no attribute \x27format\x27")

/-- `TransformRegistry.apply` together with the `get` dispatch
(transforms.py lines 29-53): read `type` (default `'str'`), look the name up
in the registry, and call `transform_func(value, **transform_config)`.
A `value` key in the config collides with the positional `value` argument
(`TypeError` at call time).  The claims exercise `str`, `int` and `template`;
the other built-in registry names (`float`, `datetime`, `lookup`,
`aggregate`) are outside the modelled fragment and mapped to a designated
`TypeError` that no theorem relies on. -/
def apply (value : Val) (config : List (String × Val)) : Except PyExc Val :=
  match (dictGet config "type").getD (.vstr "str") with
  | .vstr t =>
    if t = "str" ∨ t = "int" ∨ t = "template" then
      if (dictGet config "value").isSome then
        .error (.typeError ("got multiple values for argument \x27value\x27"))
      else if t = "str" then toStr value config
      else if t = "int" then toInt value config
      else templateTr value config
    else if t = "float" ∨ t = "datetime" ∨ t = "lookup" ∨ t = "aggregate" then
      .error (.typeError "registered transform outside the modelled fragment")
    else
      .error (.valueError ("Unknown transform: \x27" ++ t ++
        "\x27. Available: str, int, float, datetime, lookup, template, aggregate"))
  | v =>
    .error (.valueError ("Unknown transform: \x27" ++ pyStrOfVal v ++
      "\x27. Available: str, int, float, datetime, lookup, template, aggregate"))

end TransformRegistry

/-- One mapping rule, as the transformer closure reads it from the rule dict:
`rule['source']`, `rule['target']`, `rule.get('required', False)`,
`rule.get('default')` (absent modelled as `None`), and the optional
`rule['transform']` config dict. -/
structure Rule where
  source : String
  target : String
  required : Bool := false
  default : Val := .vnull
  transform : Option (List (String × Val)) := none
  deriving Repr, DecidableEq

/-- The value-computation steps of the per-rule body of the transformer
closure built by `MappingEngine._build_transformer` (engine.py lines 162-180):
read `record.get(rule.source)`; on `None` either raise
`MappingError("Required field missing: ...")` (required rule) or substitute
the default; apply the transform config to a non-`None` value. -/
def ruleValue (record : List (String × Val)) (r : Rule) : Except PyExc Val := do
  let v0 := (dictGet record r.source).getD .vnull
  let v1 ← if v0 = .vnull then
      if r.required then
        Except.error (.mappingError ("Required field missing: " ++ r.source))
      else Except.ok r.default
    else Except.ok v0
  if v1 ≠ .vnull then
    match r.transform with
    | some cfg => TransformRegistry.apply v1 cfg
    | none => Except.ok v1
  else Except.ok v1

/-- One full iteration of the rule loop (engine.py lines 162-184): compute the
rule's value and, when it is not `None`, `_set_nested` it into the result. -/
def applyRule (record : List (String × Val)) (result : Val) (r : Rule) : Except PyExc Val := do
  let v ← ruleValue record r
  if v ≠ .vnull then setNested result r.target v else Except.ok result

/-- The transformer closure returned by `MappingEngine._build_transformer`
(engine.py lines 155-186): fold the rules in declaration order over an empty
result dict. -/
def transformRecord (rules : List Rule) (record : List (String × Val)) : Except PyExc Val :=
  rules.foldlM (applyRule record) (.vobj [])

/-- One iteration of the per-record loop of `MappingEngine.execute`
(engine.py lines 70-75): transform the record and append the result, or
re-raise any exception `e` as `MappingError(f"Transformation failed: e")`. -/
def execStep (rules : List Rule) (results : List Val) (record : List (String × Val)) :
    Except PyExc (List Val) :=
  match transformRecord rules record with
  | .ok doc => .ok (results ++ [doc])
  | .error e => .error (.mappingError ("Transformation failed: " ++ e.str))

/-- The per-record loop of `MappingEngine.execute` (engine.py lines 69-77):
transform each materialized record in order, collecting the outputs;
a failure abandons the whole batch.  Mapping loading and connector parsing
are elided — the materialized record list is the input. -/
def MappingEngine.executeRecords (rules : List Rule) (records : List (List (String × Val))) :
    Except PyExc (List Val) :=
  records.foldlM (execStep rules) []

/-- The schema-validation step of `DPPBridge.transform` (bridge.py lines
76-84): when `validate` is set and the mapping names a target schema, run
`SchemaRegistry.validate` over the result documents inside one `try`; any
exception aborts the remaining validations and is discarded (`except ... pass`).
`validator` abstracts `SchemaRegistry.validate` (an arbitrary checker). -/
def DPPBridge.tryValidate (validate : Bool) (schemaName : Option String)
    (validator : String → Val → Except PyExc Unit) (results : List Val) : Unit :=
  match (if validate then
           match schemaName with
           | some name => results.foldlM (fun _ doc => validator name doc) ()
           | none => Except.ok ()
         else Except.ok () : Except PyExc Unit) with
  | .ok _ => ()
  | .error _ => ()

/-- `DPPBridge.transform` (bridge.py lines 45-100) on materialized records,
with the optional file-export step elided (`output=None`): execute the
mapping, run the swallow-on-error validation step, return the engine's
results.  `schemaName` models `mapping_config['target'].get('schema')`
(`none` when the config has no target section or no schema name). -/
def DPPBridge.transformRecords (rules : List Rule) (records : List (List (String × Val)))
    (validate : Bool) (schemaName : Option String)
    (validator : String → Val → Except PyExc Unit) : Except PyExc (List Val) := do
  let results ← MappingEngine.executeRecords rules records
  let _u := DPPBridge.tryValidate validate schemaName validator results
  return results

/-- `DEFAULT_CONTEXT` from exporters/jsonld.py lines 22-32. -/
def DEFAULT_CONTEXT : Val := .vobj
  [("@vocab", .vstr "https://schema.org/"),
   ("dpp", .vstr "https://dpp.eu/ns#"),
   ("xsd", .vstr "http://www.w3.org/2001/XMLSchema#"),
   ("identifier", .vstr "schema:identifier"),
   ("manufacturer", .vobj [("@id", .vstr "schema:manufacturer"), ("@type", .vstr "@id")]),
   ("productionDate", .vobj [("@id", .vstr "schema:productionDate"), ("@type", .vstr "xsd:date")]),
   ("carbonFootprint", .vobj [("@id", .vstr "dpp:carbonFootprint"), ("@type", .vstr "xsd:float")]),
   ("recycledContent", .vobj [("@id", .vstr "dpp:recycledContent"), ("@type", .vstr "xsd:float")])]

/-- `JSONLDExporter.export` (exporters/jsonld.py lines 47-87) for a plain-dict
argument and no output path.  `doc = data` aliases the argument dict, so
`doc["@context"] = self.context` (line 71) mutates the dict passed in; the
optional PyLD compaction (line 76) only rebinds the local variable to a fresh
document (falling back to the mutated dict when it throws).  Returns the pair
(state of the argument dict after the call, document returned to the caller);
`compactFn` abstracts `jsonld.compact` and is `none` when PyLD is unavailable
or `compact=False`. -/
def JSONLDExporter.export (ctx : Val) (compactFn : Option (Val → Val → Except PyExc Val))
    (data : List (String × Val)) : List (String × Val) × Val :=
  let arg := dictSet data "@context" ctx
  let ret : Val :=
    match compactFn with
    | some f =>
      match f (.vobj arg) ctx with
      | .ok d => d
      | .error _ => .vobj arg
    | none => .vobj arg
  (arg, ret)

/-- An XML element as `xml.etree.ElementTree` presents it: tag (with a
`\x7bnamespace\x7d` prefix when namespaced), attributes, text, children. -/
inductive XmlElem where
  | mk (tag : String) (attrib : List (String × String)) (text : Option String)
      (children : List XmlElem) : XmlElem

def XmlElem.tag : XmlElem → String
  | .mk t _ _ _ => t

/-- Standard B2MML namespace (isa95.py line 8). -/
def B2MML_NS : String := "http://www.mesa.org/xml/B2MML"

/-- The element's local tag: `elem.tag.split('\x7d')[-1] if '\x7d' in elem.tag
else elem.tag` (isa95.py line 138). -/
def localTag (tag : String) : String :=
  if tag.toList.contains '\x7d' then ((splitOnChar '\x7d' tag).getLast?).getD tag else tag

/-- Whether a string starts with the given character (`s.startswith(c)` /
`s[0] == c` checks in the Python sources). -/
def startsWithChar (s : String) (c : Char) : Bool :=
  match s.toList with
  | [] => false
  | c' :: _ => c' = c

mutual

/-- `ISA95Connector._parse_recursive` (isa95.py lines 118-163): flatten an
element into `path/Tag` keys (stripped text), `path/Tag/@attr` keys
(non-namespaced attributes), recurse into children, then — for elements
literally tagged `Property` — synthesize the predicate key
`parent/Property[@ID=\x27id\x27]/Value` when the flat record now holds truthy
values at both `path/ID` and `path/Value`. -/
def parseRecursive (record : List (String × String)) (pre : String) :
    XmlElem → List (String × String)
  | .mk tagRaw attrib text children =>
    let tag := localTag tagRaw
    let path := if pre = "" then tag else pre ++ "/" ++ tag
    let r1 :=
      match text with
      | some t => if pyStrip t ≠ "" then dictSet record path (pyStrip t) else record
      | none => record
    let r2 := attrib.foldl
      (fun r p => if startsWithChar p.1 '\x7b' then r else dictSet r (path ++ "/@" ++ p.1) p.2) r1
    let r3 := parseChildren r2 path children
    if tag = "Property" then
      match dictGet r3 (path ++ "/ID"), dictGet r3 (path ++ "/Value") with
      | some pid, some pv =>
        if pid ≠ "" ∧ pv ≠ "" then
          dictSet r3 (pre ++ "/Property[@ID=\x27" ++ pid ++ "\x27]/Value") pv
        else r3
      | _, _ => r3
    else r3

/-- The `for child in elem` loop of `_parse_recursive`. -/
def parseChildren (record : List (String × String)) (path : String) :
    List XmlElem → List (String × String)
  | [] => record
  | c :: cs => parseChildren (parseRecursive record path c) path cs

end

mutual

/-- Strict descendants of an element in document order: what
`element.findall(".//tag")` searches (the element itself is not included). -/
def XmlElem.descendants : XmlElem → List XmlElem
  | .mk _ _ _ children => descendantsList children

/-- Document-order flattening of a forest: each root followed by its
descendants. -/
def descendantsList : List XmlElem → List XmlElem
  | [] => []
  | c :: cs => c :: c.descendants ++ descendantsList cs

end

/-- `ISA95Connector._find_elements` (isa95.py lines 83-101):
`root.findall(f".//\x7b\x7bns\x7d\x7d\x7btag\x7d")`, falling back to the
namespace-free `root.findall(f".//\x7btag\x7d")` when that finds nothing.
Both search strict descendants only. -/
def findElements (root : XmlElem) (ns tag : String) : List XmlElem :=
  let withNs := root.descendants.filter (fun e => e.tag = "\x7b" ++ ns ++ "\x7d" ++ tag)
  if withNs.isEmpty then root.descendants.filter (fun e => e.tag = tag) else withNs

/-- The record-producing part of `ISA95Connector.parse` (isa95.py lines
38-81) on an already-parsed element tree (the `ET.fromstring`/`ET.parse`
text-to-tree step, and with it the `except ET.ParseError` branch, is elided):
detect the namespace from the root tag, find the repeating elements, raise
`ConnectorError("No '<tag>' elements found in XML")` when none match, else
flatten each into a fresh record via `_to_record` (prefix `""`).  That raise
sits inside the `try`, so the trailing `except Exception as e` (lines 80-81)
catches it — `ConnectorError` subclasses `Exception` — and re-raises
`ConnectorError(f"Unexpected error parsing ISA-95: e")`; the `match` below
models that re-wrap. -/
def ISA95Connector.parseTree (rootElement : String) (root : XmlElem) :
    Except PyExc (List (List (String × String))) :=
  let ns := if startsWithChar root.tag '\x7b'
    then String.mk ((root.tag.toList.drop 1).takeWhile (fun c => c ≠ '\x7d'))
    else B2MML_NS
  let elements := findElements root ns rootElement
  let inner : Except PyExc (List (List (String × String))) :=
    if elements.isEmpty then
      .error (.connectorError ("No \x27" ++ rootElement ++ "\x27 elements found in XML"))
    else
      .ok (elements.map (fun e => parseRecursive [] "" e))
  match inner with
  | .ok recs => .ok recs
  | .error e => .error (.connectorError ("Unexpected error parsing ISA-95: " ++ e.str))

/-- The split target key list `rule['target'].split('.')` of a rule. -/
def TargetKeys (r : Rule) : List String :=
  splitOnChar '.' r.target

/-- A dot path is writable in a document when every strict prefix of it that
currently points at a value points at a dict (so `_set_nested` will not
descend into, or assign into, a non-dict). -/
def Writable (res : Val) (ks : List String) : Prop :=
  ∀ p, p <+: ks → p ≠ ks → ∀ w, getNestedKeys res p = some w → ∃ fs, w = .vobj fs

/-- The value of the last rule in the list whose target splits to `ks` and
whose computed value is written (non-`None`), threading an accumulator. -/
def lastValueAux (record : List (String × Val)) (ks : List String) :
    List Rule → Option Val → Option Val
  | [], acc => acc
  | r :: rest, acc =>
    lastValueAux record ks rest
      (match ruleValue record r with
       | .ok v => if v ≠ .vnull ∧ TargetKeys r = ks then some v else acc
       | .error _ => acc)

/-- The value the last rule targeting `ks` writes (`none` when no rule writes
there): the value `_set_nested`'s last-write-wins behaviour leaves at `ks`. -/
def lastValueFor (record : List (String × Val)) (ks : List String) (rules : List Rule) :
    Option Val :=
  lastValueAux record ks rules none

/-- The element tree of the spec's ISA-95 scenario document
`<MaterialLot><ID>BAT-001</ID><Property ID="capacity"><Value>100</Value></Property></MaterialLot>`
(the `ID` of the `Property` element is an XML attribute). -/
def claimLotXml : XmlElem :=
  .mk "MaterialLot" [] none
    [.mk "ID" [] (some "BAT-001") [],
     .mk "Property" [("ID", "capacity")] none [.mk "Value" [] (some "100") []]]

/-- The nearby document the connector does handle: `MaterialLot` nested under
a parent element, with the `Property`'s `ID` as a child element:
`<Root><MaterialLot><ID>BAT-001</ID><Property><ID>capacity</ID><Value>100</Value></Property></MaterialLot></Root>`. -/
def wrappedLotXml : XmlElem :=
  .mk "Root" [] none
    [.mk "MaterialLot" [] none
      [.mk "ID" [] (some "BAT-001") [],
       .mk "Property" [] none
         [.mk "ID" [] (some "capacity") [],
          .mk "Value" [] (some "100") []]]]

/-- A schema validator that rejects every document (stand-in for
`SchemaRegistry.validate` raising on a non-conforming document). -/
def failingValidator : String → Val → Except PyExc Unit :=
  fun name _ => .error (.valueError ("document does not conform to schema " ++ name))

section DictLemmas

variable {α : Type}

theorem dictGet_dictSet_self (fs : List (String × α)) (k : String) (v : α) :
    dictGet (dictSet fs k v) k = some v := by
  induction fs with
  | nil => simp [dictGet, dictSet]
  | cons p rest ih =>
    obtain ⟨k', v'⟩ := p
    by_cases h : k' = k
    · simp [dictGet, dictSet, h]
    · simp [dictGet, dictSet, h, ih]

theorem dictGet_dictSet_ne (fs : List (String × α)) (k k' : String) (v : α)
    (h : k ≠ k') : dictGet (dictSet fs k v) k' = dictGet fs k' := by
  induction fs with
  | nil => simp [dictGet, dictSet, h]
  | cons p rest ih =>
    obtain ⟨k'', v''⟩ := p
    by_cases h2 : k'' = k
    · subst h2
      simp [dictGet, dictSet, h]
    · simp [dictGet, dictSet, h2, ih]

end DictLemmas

theorem splitOnCharAux_ne_nil (sep : Char) (cs acc : List Char) :
    splitOnCharAux sep cs acc ≠ [] := by
  induction cs generalizing acc with
  | nil => simp [splitOnCharAux]
  | cons c rest ih =>
    by_cases h : c = sep <;> simp [splitOnCharAux, h, ih]

theorem splitOnChar_ne_nil (sep : Char) (s : String) : splitOnChar sep s ≠ [] :=
  splitOnCharAux_ne_nil sep s.toList []

theorem TargetKeys_ne_nil (r : Rule) : TargetKeys r ≠ [] :=
  splitOnChar_ne_nil _ _

/-- **C3** (corrected by `C3_counterexample`): the `int` transform coerces via
an intermediate float parse (`"123.45"` yields `123`); it returns the
configured default for `None` and empty-string input, and for every input
whose parse raises `ValueError` (e.g. `"abc"`) or whose value is a non-number
(`TypeError`), rather than raising; but an input parsing to an infinity
raises an uncaught `OverflowError` from `int()` (see the counterexample). -/
theorem C3_int_transform :
    (TransformRegistry.toInt (.vstr "123.45") [] = .ok (.vint 123)) ∧
    (∀ kwargs : List (String × Val),
      TransformRegistry.toInt .vnull kwargs = .ok ((dictGet kwargs "default").getD .vnull) ∧
      TransformRegistry.toInt (.vstr "") kwargs = .ok ((dictGet kwargs "default").getD .vnull)) ∧
    (∀ (s : String) (kwargs : List (String × Val)) (m : String),
      pyFloatOfString s = .error (.valueError m) →
      TransformRegistry.toInt (.vstr s) kwargs = .ok ((dictGet kwargs "default").getD .vnull)) ∧
    (∀ (fs : List (String × Val)) (kwargs : List (String × Val)),
      TransformRegistry.toInt (.vobj fs) kwargs = .ok ((dictGet kwargs "default").getD .vnull)) ∧
    (TransformRegistry.toInt (.vstr "abc") [("default", .vint 7)] = .ok (.vint 7)) := by
  refine ⟨by decide, ?_, ?_, ?_, by decide⟩
  · intro kwargs
    constructor <;> simp [TransformRegistry.toInt]
  · intro s kwargs m h
    by_cases hs : s = ""
    · subst hs; simp [TransformRegistry.toInt]
    · have hcond : ¬ (Val.vstr s = .vnull ∨ Val.vstr s = .vstr "") := by simp [hs]
      simp only [TransformRegistry.toInt, if_neg hcond, pyFloatOfVal, h]
  · intro fs kwargs
    simp [TransformRegistry.toInt, pyFloatOfVal]

/-- Witness for `C3_int_transform`: the parse-failure branch at input
`"xyz"` with default `5`. -/
theorem C3_witness :
    TransformRegistry.toInt (.vstr "xyz") [("default", .vint 5)] = .ok (.vint 5) := by
  have h := C3_int_transform.2.2.1 "xyz" [("default", .vint 5)]
    ("could not convert string to float: " ++ "\x27" ++ "xyz" ++ "\x27") (by decide)
  simpa using h

/-- **C3 counterexample**: on input `"inf"` the numeric coercion fails and
`_to_int` raises an uncaught `OverflowError` (the `except` clause catches
only `ValueError` and `TypeError`) instead of returning the configured
default — refuting "returns the configured default — never raising an
exception — for every input on which the numeric parse fails". -/
theorem C3_counterexample :
    TransformRegistry.toInt (.vstr "inf") [("default", .vint 0)] =
      .error (.overflowError "cannot convert float infinity to integer") ∧
    TransformRegistry.toInt (.vstr "inf") [("default", .vint 0)] ≠ .ok (.vint 0) := by
  constructor <;> decide

theorem string_append_empty (s : String) : s ++ "" = s := by
  obtain ⟨d⟩ := s
  show String.mk (d ++ []) = String.mk d
  rw [List.append_nil]

/-- **C7** (corrected by `C7_counterexample`): the `template` transform
renders the format string with the value bound to the `value` placeholder
plus the other config entries as named parameters; when rendering fails with
a `KeyError` (missing named placeholder) or a `ValueError` it returns the raw
template unrendered; but a missing positional placeholder (`IndexError`)
propagates as an exception (see the counterexample). -/
theorem C7_template_transform :
    (∀ v : Val,
      TransformRegistry.templateTr v
        [("type", .vstr "template"), ("template", .vstr "ID-\x7bvalue\x7d")] =
        .ok (.vstr ("ID-" ++ pyStrOfVal v))) ∧
    (∀ v : Val,
      TransformRegistry.templateTr v
        [("type", .vstr "template"), ("template", .vstr "\x7bmissing\x7d")] =
        .ok (.vstr "\x7bmissing\x7d")) ∧
    (∀ (v : Val) (t : String) (config : List (String × Val)) (m : String),
      dictGet config "template" = some (.vstr t) →
      pyFormat t (("value", v) :: config.filter (fun p => p.1 ≠ "template")) =
        .error (.keyError m) →
      TransformRegistry.templateTr v config = .ok (.vstr t)) ∧
    (∀ (v : Val) (t : String) (config : List (String × Val)) (m : String),
      dictGet config "template" = some (.vstr t) →
      pyFormat t (("value", v) :: config.filter (fun p => p.1 ≠ "template")) =
        .error (.indexError m) →
      TransformRegistry.templateTr v config = .error (.indexError m)) := by
  have happ : ∀ X : String, "I" ++ ("D" ++ ("-" ++ X)) = "ID-" ++ X := by
    intro X
    rw [← String.append_assoc, ← String.append_assoc]
    exact congrArg (fun s => s ++ X) (by decide)
  refine ⟨?_, ?_, ?_, ?_⟩
  · intro v
    have h : TransformRegistry.templateTr v
        [("type", .vstr "template"), ("template", .vstr "ID-\x7bvalue\x7d")] =
        .ok (.vstr ("I" ++ ("D" ++ ("-" ++ (pyStrOfVal v ++ ""))))) := rfl
    rw [h, string_append_empty, happ]
  · intro v
    rfl
  · intro v t config m h1 h2
    simp only [TransformRegistry.templateTr, h1, Option.getD_some, h2]
  · intro v t config m h1 h2
    simp only [TransformRegistry.templateTr, h1, Option.getD_some, h2]

/-- Witness for `C7_template_transform`: a template whose only placeholder is
unbound degrades to the raw template. -/
theorem C7_witness :
    TransformRegistry.templateTr (.vstr "X")
      [("type", .vstr "template"), ("template", .vstr "\x7bnope\x7d")] =
      .ok (.vstr "\x7bnope\x7d") :=
  C7_template_transform.2.2.1 (.vstr "X") "\x7bnope\x7d"
    [("type", .vstr "template"), ("template", .vstr "\x7bnope\x7d")] "nope"
    (by decide) (by decide)

/-- **C7 counterexample**: rendering `"\x7b\x7d"` fails because the
positional placeholder has no argument, and the `template` transform raises
`IndexError` (only `KeyError`/`ValueError` are caught) instead of returning
the raw template — refuting "whenever rendering fails because a placeholder
is missing, it returns the raw template string unrendered instead of raising
an exception".  Stated through `TransformRegistry.apply`, the full dispatch
path the engine uses. -/
theorem C7_counterexample :
    TransformRegistry.apply (.vstr "X")
      [("type", .vstr "template"), ("template", .vstr "\x7b\x7d")] =
      .error (.indexError "Replacement index out of range for positional args tuple") := by
  decide

/-- **C10** (confirmed): `JSONLDExporter.export` on a plain dict mutates its
argument in place — afterwards the dict passed in holds `@context` bound to
the exporter's context (overwriting any prior `@context`), and every other
top-level key keeps its value, whether or not the optional compaction step
replaces the returned document. -/
theorem C10_export_mutates_argument :
    ∀ (ctx : Val) (compactFn : Option (Val → Val → Except PyExc Val))
      (data : List (String × Val)),
      dictGet (JSONLDExporter.export ctx compactFn data).1 "@context" = some ctx ∧
      ∀ k : String, k ≠ "@context" →
        dictGet (JSONLDExporter.export ctx compactFn data).1 k = dictGet data k := by
  intro ctx cf data
  constructor
  · show dictGet (dictSet data "@context" ctx) "@context" = some ctx
    exact dictGet_dictSet_self data _ ctx
  · intro k hk
    show dictGet (dictSet data "@context" ctx) k = dictGet data k
    exact dictGet_dictSet_ne data _ k ctx (fun h => hk h.symm)

/-- Witness for `C10_export_mutates_argument`: a dict with a prior
`@context` and another field, exported with a compaction step that replaces
the returned document — the argument dict still ends up mutated. -/
theorem C10_witness :
    dictGet (JSONLDExporter.export DEFAULT_CONTEXT (some (fun _ _ => .ok (.vobj [])))
        [("identifier", .vstr "P1"), ("@context", .vstr "old")]).1 "@context" =
      some DEFAULT_CONTEXT ∧
    dictGet (JSONLDExporter.export DEFAULT_CONTEXT (some (fun _ _ => .ok (.vobj [])))
        [("identifier", .vstr "P1"), ("@context", .vstr "old")]).1 "identifier" =
      some (.vstr "P1") :=
  ⟨(C10_export_mutates_argument DEFAULT_CONTEXT (some (fun _ _ => .ok (.vobj [])))
      [("identifier", .vstr "P1"), ("@context", .vstr "old")]).1,
   (C10_export_mutates_argument DEFAULT_CONTEXT (some (fun _ _ => .ok (.vobj [])))
      [("identifier", .vstr "P1"), ("@context", .vstr "old")]).2 "identifier" (by decide)⟩

/-- **C8** (confirmed): with `validate` enabled and a schema named, the
bridge's `transform` swallows every schema-validation failure: its outcome
does not depend on the validator at all, and whenever the engine succeeds the
full document list is returned unchanged. -/
theorem C8_bridge_swallows_validation :
    ∀ (rules : List Rule) (records : List (List (String × Val)))
      (schemaName : Option String) (validator validator2 : String → Val → Except PyExc Unit)
      (docs : List Val),
      MappingEngine.executeRecords rules records = .ok docs →
      DPPBridge.transformRecords rules records true schemaName validator = .ok docs ∧
      DPPBridge.transformRecords rules records true schemaName validator =
        DPPBridge.transformRecords rules records true schemaName validator2 := by
  intro rules records schemaName v1 v2 docs h
  constructor
  · simp [DPPBridge.transformRecords, h]
  · simp [DPPBridge.transformRecords, h]

/-- Witness for `C8_bridge_swallows_validation`: a validator that rejects
every document does not disturb the returned list. -/
theorem C8_witness :
    DPPBridge.transformRecords [] [[]] true (some "battery_pass") failingValidator =
      .ok [.vobj []] :=
  (C8_bridge_swallows_validation [] [[]] (some "battery_pass") failingValidator
    failingValidator [.vobj []] (by decide)).1

/-- **C6 counterexample**: on the claim's exact document (root element
`MaterialLot`, `Property` carrying its `ID` as an XML *attribute*) the
connector raises `ConnectorError` — `findall(".//MaterialLot")` searches
strict descendants, so a root `MaterialLot` never matches, and the inner
no-elements `ConnectorError` is caught by the `except Exception` clause and
re-raised with the `"Unexpected error parsing ISA-95: "` prefix — and even
the flattened form of that element holds the attribute under
`MaterialLot/Property/@ID`, not `MaterialLot/Property/ID`, and synthesizes no
predicate key (the synthesis reads the `ID` *child-element* path). -/
theorem C6_counterexample :
    ISA95Connector.parseTree "MaterialLot" claimLotXml =
      .error (.connectorError
        ("Unexpected error parsing ISA-95: No \x27MaterialLot\x27 elements found in XML")) ∧
    dictGet (parseRecursive [] "" claimLotXml) "MaterialLot/Property/ID" = none ∧
    dictGet (parseRecursive [] "" claimLotXml)
      "MaterialLot/Property[@ID=\x27capacity\x27]/Value" = none ∧
    dictGet (parseRecursive [] "" claimLotXml) "MaterialLot/Property/@ID" =
      some "capacity" := by
  exact ⟨by decide, by decide, by decide, by decide⟩

/-- **C6** (corrected by `C6_counterexample`): the scenario holds for the
nearby document the connector actually handles — `MaterialLot` nested under a
parent element and the `Property`'s `ID` as a child element.  Parsing yields
exactly one DataRecord, containing both `MaterialLot/Property/ID = "capacity"`
and the synthesized `MaterialLot/Property[@ID=\x27capacity\x27]/Value = "100"`. -/
theorem C6_isa95_scenario :
    ISA95Connector.parseTree "MaterialLot" wrappedLotXml =
      .ok [[("MaterialLot/ID", "BAT-001"),
            ("MaterialLot/Property/ID", "capacity"),
            ("MaterialLot/Property/Value", "100"),
            ("MaterialLot/Property[@ID=\x27capacity\x27]/Value", "100")]] ∧
    dictGet [("MaterialLot/ID", "BAT-001"),
             ("MaterialLot/Property/ID", "capacity"),
             ("MaterialLot/Property/Value", "100"),
             ("MaterialLot/Property[@ID=\x27capacity\x27]/Value", "100")]
      "MaterialLot/Property/ID" = some "capacity" ∧
    dictGet [("MaterialLot/ID", "BAT-001"),
             ("MaterialLot/Property/ID", "capacity"),
             ("MaterialLot/Property/Value", "100"),
             ("MaterialLot/Property[@ID=\x27capacity\x27]/Value", "100")]
      "MaterialLot/Property[@ID=\x27capacity\x27]/Value" = some "100" := by
  exact ⟨by decide, by decide, by decide⟩

theorem transform_failed_msg (s : String) :
    "Transformation failed: " ++ ("Required field missing: " ++ s) =
      "Transformation failed: Required field missing: " ++ s := by
  rw [← String.append_assoc]
  exact congrArg (· ++ s) (by decide)

/-- A required rule whose source path resolves to `None` makes the rule body
raise `MappingError` naming the path, whatever the accumulated result is. -/
theorem applyRule_required_missing (record : List (String × Val)) (r : Rule) (res : Val)
    (hreq : r.required = true)
    (hmiss : (dictGet record r.source).getD .vnull = .vnull) :
    applyRule record res r =
      .error (.mappingError ("Required field missing: " ++ r.source)) := by
  simp [applyRule, ruleValue, hmiss, hreq, Bind.bind, Except.bind]

/-- If any rule of the list is required and unresolved, the whole rule fold
fails, from any starting result. -/
theorem foldRules_error_of_required_missing (rules : List Rule) (r : Rule)
    (record : List (String × Val)) (res : Val)
    (hmem : r ∈ rules) (hreq : r.required = true)
    (hmiss : (dictGet record r.source).getD .vnull = .vnull) :
    ∃ e, rules.foldlM (applyRule record) res = .error e := by
  induction rules generalizing res with
  | nil => cases hmem
  | cons r' rest ih =>
    rw [List.foldlM_cons]
    rcases List.mem_cons.mp hmem with heq | hmem'
    · subst heq
      rw [applyRule_required_missing record r res hreq hmiss]
      exact ⟨_, rfl⟩
    · cases happ : applyRule record res r' with
      | error e => exact ⟨e, by simp [happ, Bind.bind, Except.bind]⟩
      | ok res' =>
        obtain ⟨e, he⟩ := ih res' hmem'
        exact ⟨e, by simp [happ, Bind.bind, Except.bind, he]⟩

/-- If some record of the batch fails to transform, the whole per-record loop
raises a `MappingError`, from any accumulator. -/
theorem execFold_error_of_mem (rules : List Rule) (records : List (List (String × Val)))
    (record : List (String × Val)) (acc : List Val) (e : PyExc)
    (hmem : record ∈ records) (herr : transformRecord rules record = .error e) :
    ∃ m, records.foldlM (execStep rules) acc = .error (.mappingError m) := by
  induction records generalizing acc with
  | nil => cases hmem
  | cons rec rest ih =>
    rw [List.foldlM_cons]
    cases hstep : transformRecord rules rec with
    | error e' =>
      refine ⟨"Transformation failed: " ++ e'.str, ?_⟩
      simp [execStep, hstep, Bind.bind, Except.bind]
    | ok doc =>
      rcases List.mem_cons.mp hmem with heq | hmem'
      · subst heq
        rw [hstep] at herr
        cases herr
      · obtain ⟨m, hm⟩ := ih (acc ++ [doc]) hmem'
        exact ⟨m, by simp [execStep, hstep, Bind.bind, Except.bind, hm]⟩

/-- When every record before the failing one succeeds, the per-record loop
surfaces exactly the failing record's wrapped message. -/
theorem execFold_first_error (rules : List Rule) (rs1 rs2 : List (List (String × Val)))
    (record : List (String × Val)) (acc : List Val) (e : PyExc)
    (hok : ∀ rec ∈ rs1, ∃ d, transformRecord rules rec = .ok d)
    (herr : transformRecord rules record = .error e) :
    (rs1 ++ record :: rs2).foldlM (execStep rules) acc =
      .error (.mappingError ("Transformation failed: " ++ e.str)) := by
  induction rs1 generalizing acc with
  | nil =>
    rw [List.nil_append, List.foldlM_cons]
    simp [execStep, herr, Bind.bind, Except.bind]
  | cons rec rest ih =>
    rw [List.cons_append, List.foldlM_cons]
    obtain ⟨d, hd⟩ := hok rec (List.mem_cons_self rec rest)
    have hrest := ih (acc ++ [d]) (fun rec' hmem => hok rec' (List.mem_cons_of_mem rec hmem))
    simp [execStep, hd, Bind.bind, Except.bind, hrest]

/-- **C1** (confirmed): if some rule is `required` and the record holds no
value (absent or `None`) at its source path, then the batch produces zero
output documents — `executeRecords` results in a `MappingError`, never a
document list (first conjunct); and when that required rule is the first
failure point of the batch (all earlier records succeed and all earlier rules
of the record succeed), the `MappingError` names exactly the missing source
path (second conjunct). -/
theorem C1_required_missing_aborts :
    (∀ (rules : List Rule) (records : List (List (String × Val))) (r : Rule)
       (record : List (String × Val)),
      record ∈ records → r ∈ rules → r.required = true →
      (dictGet record r.source).getD .vnull = .vnull →
      ∃ m, MappingEngine.executeRecords rules records = .error (.mappingError m)) ∧
    (∀ (pre post : List Rule) (r : Rule) (rs1 rs2 : List (List (String × Val)))
       (record : List (String × Val)) (res0 : Val),
      (∀ rec ∈ rs1, ∃ d, transformRecord (pre ++ r :: post) rec = .ok d) →
      pre.foldlM (applyRule record) (Val.vobj []) = .ok res0 →
      r.required = true →
      (dictGet record r.source).getD .vnull = .vnull →
      MappingEngine.executeRecords (pre ++ r :: post) (rs1 ++ record :: rs2) =
        .error (.mappingError ("Transformation failed: Required field missing: " ++ r.source))) := by
  constructor
  · intro rules records r record hrec hmem hreq hmiss
    obtain ⟨e, he⟩ :=
      foldRules_error_of_required_missing rules r record (.vobj []) hmem hreq hmiss
    exact execFold_error_of_mem rules records record [] e hrec he
  · intro pre post r rs1 rs2 record res0 hok hpre hreq hmiss
    have herr : transformRecord (pre ++ r :: post) record =
        .error (.mappingError ("Required field missing: " ++ r.source)) := by
      unfold transformRecord
      rw [List.foldlM_append, hpre]
      show (r :: post).foldlM (applyRule record) res0 = _
      rw [List.foldlM_cons, applyRule_required_missing record r res0 hreq hmiss]
      rfl
    have hfold := execFold_first_error (pre ++ r :: post) rs1 rs2 record [] _ hok herr
    calc MappingEngine.executeRecords (pre ++ r :: post) (rs1 ++ record :: rs2)
        = .error (.mappingError
            ("Transformation failed: " ++ ("Required field missing: " ++ r.source))) := hfold
      _ = .error (.mappingError
            ("Transformation failed: Required field missing: " ++ r.source)) := by
          rw [transform_failed_msg]

/-- Witness for `C1_required_missing_aborts`: one required rule, one record
without its source path. -/
theorem C1_witness :
    MappingEngine.executeRecords
      [{source := "batch_id", target := "id", required := true}] [[]] =
      .error (.mappingError "Transformation failed: Required field missing: batch_id") := by
  have h := C1_required_missing_aborts.2 [] []
    {source := "batch_id", target := "id", required := true} [] [] [] (.vobj [])
    (by simp) rfl rfl (by decide)
  exact h.trans (by decide)

/-- Writing into an empty document always succeeds and leaves the value
readable at the written path. -/
theorem setNestedKeys_from_empty (ks : List String) (v : Val) (hne : ks ≠ []) :
    ∃ doc, setNestedKeys (.vobj []) ks v = .ok doc ∧ getNestedKeys doc ks = some v := by
  induction ks with
  | nil => cases hne rfl
  | cons k rest ih =>
    cases rest with
    | nil =>
      refine ⟨.vobj [(k, v)], rfl, ?_⟩
      simp [getNestedKeys, dictGet]
    | cons k2 rest2 =>
      obtain ⟨doc, hset, hget⟩ := ih (by simp)
      refine ⟨.vobj [(k, doc)], ?_, ?_⟩
      · simp [setNestedKeys, dictGet, dictSet, hset]
      · simp [getNestedKeys, dictGet, hget]

/-- **C5 counterexample**: a non-required rule with the non-`None` default
`"abc"` and an `int` transform, applied to a record lacking the source path:
the default is routed through the transform, which produces `None`, so the
output document omits the target key instead of holding `"abc"` — refuting
"the output document contains the rule's default value at the rule's target
path". -/
theorem C5_counterexample :
    transformRecord
      [{source := "x", target := "t", default := .vstr "abc",
        transform := some [("type", .vstr "int")]}] [] = .ok (.vobj []) ∧
    (Val.vstr "abc" ≠ .vnull) ∧
    dictGet ([] : List (String × Val)) "x" = none ∧
    getNestedKeys (.vobj []) (splitOnChar '.' "t") = none := by
  exact ⟨by decide, by decide, rfl, by decide⟩

/-- **C5** (corrected by `C5_counterexample`): for a non-required rule with
an absent source path, when the rule has **no transform** the output document
holds the rule's default at the target path, and the target key is omitted
entirely when the default is `None`; when the rule has a transform, the
default is first passed through the transform, whose result is what is
written (and the key is omitted when that result is `None`). -/
theorem C5_default_behavior :
    (∀ (r : Rule) (record : List (String × Val)),
      r.required = false → r.transform = none →
      (dictGet record r.source).getD .vnull = .vnull → r.default = .vnull →
      transformRecord [r] record = .ok (.vobj [])) ∧
    (∀ (r : Rule) (record : List (String × Val)),
      r.required = false → r.transform = none →
      (dictGet record r.source).getD .vnull = .vnull → r.default ≠ .vnull →
      ∃ doc, transformRecord [r] record = .ok doc ∧
        getNestedKeys doc (TargetKeys r) = some r.default) ∧
    (∀ (r : Rule) (record : List (String × Val)) (cfg : List (String × Val)),
      r.required = false → r.transform = some cfg →
      (dictGet record r.source).getD .vnull = .vnull → r.default ≠ .vnull →
      TransformRegistry.apply r.default cfg = .ok .vnull →
      transformRecord [r] record = .ok (.vobj [])) ∧
    (∀ (r : Rule) (record : List (String × Val)) (cfg : List (String × Val)) (u : Val),
      r.required = false → r.transform = some cfg →
      (dictGet record r.source).getD .vnull = .vnull → r.default ≠ .vnull →
      TransformRegistry.apply r.default cfg = .ok u → u ≠ .vnull →
      ∃ doc, transformRecord [r] record = .ok doc ∧
        getNestedKeys doc (TargetKeys r) = some u) := by
  refine ⟨?_, ?_, ?_, ?_⟩
  · intro r record hreq htr hmiss hdef
    have hrv : ruleValue record r = .ok .vnull := by
      simp [ruleValue, hmiss, hreq, htr, hdef, Bind.bind, Except.bind]
    simp only [transformRecord, List.foldlM_cons, List.foldlM_nil]
    have happly : applyRule record (.vobj []) r = .ok (.vobj []) := by
      unfold applyRule
      rw [hrv]
      rfl
    rw [happly]
    rfl
  · intro r record hreq htr hmiss hdef
    obtain ⟨doc, hset, hget⟩ :=
      setNestedKeys_from_empty (TargetKeys r) r.default (TargetKeys_ne_nil r)
    refine ⟨doc, ?_, hget⟩
    have hrv : ruleValue record r = .ok r.default := by
      simp [ruleValue, hmiss, hreq, htr, Bind.bind, Except.bind]
    simp only [transformRecord, List.foldlM_cons, List.foldlM_nil]
    show (applyRule record (.vobj []) r) >>= (fun res => pure res) = .ok doc
    have happly : applyRule record (.vobj []) r = .ok doc := by
      unfold applyRule
      rw [hrv]
      show (if r.default ≠ .vnull then setNested (.vobj []) r.target r.default
            else .ok (.vobj [])) = .ok doc
      rw [if_pos hdef]
      exact hset
    rw [happly]
    rfl
  · intro r record cfg hreq htr hmiss hdef happ
    have hrv : ruleValue record r = .ok .vnull := by
      simp [ruleValue, hmiss, hreq, htr, Bind.bind, Except.bind, hdef, happ]
    simp only [transformRecord, List.foldlM_cons, List.foldlM_nil]
    show (applyRule record (.vobj []) r) >>= (fun res => pure res) = .ok (.vobj [])
    have happly : applyRule record (.vobj []) r = .ok (.vobj []) := by
      unfold applyRule
      rw [hrv]
      rfl
    rw [happly]
    rfl
  · intro r record cfg u hreq htr hmiss hdef happ hu
    obtain ⟨doc, hset, hget⟩ := setNestedKeys_from_empty (TargetKeys r) u (TargetKeys_ne_nil r)
    refine ⟨doc, ?_, hget⟩
    have hrv : ruleValue record r = .ok u := by
      simp [ruleValue, hmiss, hreq, htr, Bind.bind, Except.bind, hdef, happ]
    simp only [transformRecord, List.foldlM_cons, List.foldlM_nil]
    show (applyRule record (.vobj []) r) >>= (fun res => pure res) = .ok doc
    have happly : applyRule record (.vobj []) r = .ok doc := by
      unfold applyRule
      rw [hrv]
      show (if u ≠ .vnull then setNested (.vobj []) r.target u else .ok (.vobj [])) = .ok doc
      rw [if_pos hu]
      exact hset
    rw [happly]
    rfl

/-- Witness for `C5_default_behavior`: a transform-free rule with default
`"D"` and absent source writes `"D"` at the (nested) target path. -/
theorem C5_witness :
    ∃ doc, transformRecord [{source := "x", target := "a.b", default := .vstr "D"}] [] =
        .ok doc ∧
      getNestedKeys doc (TargetKeys {source := "x", target := "a.b", default := .vstr "D"}) =
        some (.vstr "D") :=
  C5_default_behavior.2.1 {source := "x", target := "a.b", default := .vstr "D"} []
    rfl rfl rfl (by decide)

/-- `_set_nested` fails whenever the path strictly extends a path currently
holding a non-dict value: the walk reaches that value and descends into, or
assigns into, a non-dict. -/
theorem setNestedKeys_error_of_nonobj_leaf :
    ∀ (pkeys qkeys : List String) (res w v : Val),
      getNestedKeys res pkeys = some w → (∀ fs, w ≠ .vobj fs) → qkeys ≠ [] →
      ∃ e, setNestedKeys res (pkeys ++ qkeys) v = .error e := by
  intro pkeys
  induction pkeys with
  | nil =>
    intro qkeys res w v hget hnonobj hq
    have hres : res = w := by
      simpa [getNestedKeys] using hget
    subst hres
    cases hqk : qkeys with
    | nil => exact absurd hqk hq
    | cons q qrest =>
      cases res with
      | vnull => exact ⟨_, rfl⟩
      | vstr s => exact ⟨_, rfl⟩
      | vint n => exact ⟨_, rfl⟩
      | vobj fs => exact absurd rfl (hnonobj fs)
  | cons k ks ih =>
    intro qkeys res w v hget hnonobj hq
    cases res with
    | vnull => simp [getNestedKeys] at hget
    | vstr s => simp [getNestedKeys] at hget
    | vint n => simp [getNestedKeys] at hget
    | vobj fs =>
      cases hdg : dictGet fs k with
      | none => rw [getNestedKeys, hdg] at hget; cases hget
      | some c =>
        rw [getNestedKeys, hdg] at hget
        obtain ⟨e, he⟩ := ih qkeys c w v hget hnonobj hq
        cases hkq : ks ++ qkeys with
        | nil =>
          rcases List.append_eq_nil.mp hkq with ⟨-, h2⟩
          exact absurd h2 hq
        | cons k2 rest =>
          refine ⟨e, ?_⟩
          show setNestedKeys (.vobj fs) (k :: (ks ++ qkeys)) v = .error e
          rw [hkq]
          rw [hkq] at he
          simp [setNestedKeys, hdg, he]

/-- **C9** (confirmed): when the accumulated document holds a scalar
(non-dict) value at path `p` — as after an earlier rule wrote a scalar there —
and a later rule's target strictly extends `p` by one or more dot segments,
the nested write does not merge or replace the scalar: the transformer raises
for that record, and any batch containing the record yields a `MappingError`
and zero output documents. -/
theorem C9_nested_write_into_scalar_fails :
    ∀ (pre post : List Rule) (r2 : Rule) (record : List (String × Val))
      (res0 w u : Val) (pkeys qkeys : List String),
      pre.foldlM (applyRule record) (.vobj []) = .ok res0 →
      getNestedKeys res0 pkeys = some w →
      (∀ fs, w ≠ .vobj fs) →
      TargetKeys r2 = pkeys ++ qkeys → qkeys ≠ [] →
      ruleValue record r2 = .ok u → u ≠ .vnull →
      (∃ e, transformRecord (pre ++ r2 :: post) record = .error e) ∧
      (∀ records, record ∈ records →
        ∃ m, MappingEngine.executeRecords (pre ++ r2 :: post) records =
          .error (.mappingError m)) := by
  intro pre post r2 record res0 w u pkeys qkeys hpre hget hnonobj htk hq hrv hu
  obtain ⟨e, he⟩ := setNestedKeys_error_of_nonobj_leaf pkeys qkeys res0 w u hget hnonobj hq
  have herr : transformRecord (pre ++ r2 :: post) record = .error e := by
    unfold transformRecord
    rw [List.foldlM_append, hpre]
    show (r2 :: post).foldlM (applyRule record) res0 = _
    rw [List.foldlM_cons]
    have happly : applyRule record res0 r2 = .error e := by
      unfold applyRule
      rw [hrv]
      show (if u ≠ .vnull then setNested res0 r2.target u else .ok res0) = _
      rw [if_pos hu]
      show setNestedKeys res0 (splitOnChar '.' r2.target) u = _
      have : splitOnChar '.' r2.target = pkeys ++ qkeys := htk
      rw [this]
      exact he
    rw [happly]
    rfl
  refine ⟨⟨e, herr⟩, ?_⟩
  intro records hmem
  exact execFold_error_of_mem _ records record [] e hmem herr

/-- Witness for `C9_nested_write_into_scalar_fails`: rule targets `a` then
`a.b`, both sourced, on one record. -/
theorem C9_witness :
    ∃ m, MappingEngine.executeRecords
      [{source := "s1", target := "a"}, {source := "s2", target := "a.b"}]
      [[("s1", .vstr "v"), ("s2", .vstr "w")]] = .error (.mappingError m) :=
  (C9_nested_write_into_scalar_fails [{source := "s1", target := "a"}] []
    {source := "s2", target := "a.b"} [("s1", .vstr "v"), ("s2", .vstr "w")]
    (.vobj [("a", .vstr "v")]) (.vstr "v") (.vstr "w") ["a"] ["b"]
    (by decide) (by decide) (fun fs h => Val.noConfusion h) (by decide) (by decide)
    (by decide) (by decide)).2
    [[("s1", .vstr "v"), ("s2", .vstr "w")]] (by simp)

/-- `_set_nested` succeeds whenever every strict prefix of the path currently
holds a dict (or nothing). -/
theorem setNestedKeys_ok_of_writable :
    ∀ (ks : List String) (res v : Val), ks ≠ [] → Writable res ks →
      ∃ res', setNestedKeys res ks v = .ok res' := by
  intro ks
  induction ks with
  | nil => intro res v h _; cases h rfl
  | cons k rest ih =>
    intro res v _ hw
    obtain ⟨fs, hfs⟩ :=
      hw [] List.nil_prefix (by simp) res (by simp [getNestedKeys])
    subst hfs
    cases rest with
    | nil => exact ⟨.vobj (dictSet fs k v), rfl⟩
    | cons k2 rest2 =>
      have hwc : Writable ((dictGet fs k).getD (.vobj [])) (k2 :: rest2) := by
        intro p hp hne w hgw
        cases hdg : dictGet fs k with
        | some c =>
          rw [hdg] at hgw
          have hres : getNestedKeys (Val.vobj fs) (k :: p) = some w := by
            rw [getNestedKeys, hdg]
            simpa using hgw
          refine hw (k :: p) (List.cons_prefix_cons.mpr ⟨rfl, hp⟩) ?_ w hres
          intro hcontra
          injection hcontra with _ h2
          exact hne h2
        | none =>
          rw [hdg] at hgw
          cases p with
          | nil =>
            simp only [getNestedKeys, Option.getD_none] at hgw
            exact ⟨[], (Option.some.inj hgw).symm⟩
          | cons a b =>
            simp [getNestedKeys, dictGet] at hgw
      obtain ⟨c', hc'⟩ := ih ((dictGet fs k).getD (.vobj [])) v (by simp) hwc
      refine ⟨.vobj (dictSet fs k c'), ?_⟩
      simp [setNestedKeys, hc']

/-- After a successful `_set_nested`, the written value is readable at the
written path. -/
theorem getNestedKeys_setNestedKeys_self :
    ∀ (ks : List String) (res v res' : Val),
      setNestedKeys res ks v = .ok res' → getNestedKeys res' ks = some v := by
  intro ks
  induction ks with
  | nil =>
    intro res v res' hset
    cases res <;> cases hset
  | cons k rest ih =>
    intro res v res' hset
    cases res with
    | vnull => cases hset
    | vstr s => cases hset
    | vint n => cases hset
    | vobj fs =>
      cases rest with
      | nil =>
        have hres : Except.ok (Val.vobj (dictSet fs k v)) = Except.ok res' := hset
        have : res' = .vobj (dictSet fs k v) := (Except.ok.inj hres).symm
        subst this
        simp [getNestedKeys, dictGet_dictSet_self]
      | cons k2 rest2 =>
        cases hrec : setNestedKeys ((dictGet fs k).getD (.vobj [])) (k2 :: rest2) v with
        | error e =>
          rw [show setNestedKeys (Val.vobj fs) (k :: k2 :: rest2) v =
            (match setNestedKeys ((dictGet fs k).getD (.vobj [])) (k2 :: rest2) v with
             | .ok c => Except.ok (Val.vobj (dictSet fs k c))
             | .error e => Except.error e) from rfl, hrec] at hset
          cases hset
        | ok c' =>
          rw [show setNestedKeys (Val.vobj fs) (k :: k2 :: rest2) v =
            (match setNestedKeys ((dictGet fs k).getD (.vobj [])) (k2 :: rest2) v with
             | .ok c => Except.ok (Val.vobj (dictSet fs k c))
             | .error e => Except.error e) from rfl, hrec] at hset
          have : res' = .vobj (dictSet fs k c') := (Except.ok.inj hset).symm
          subst this
          have hi := ih _ v c' hrec
          simp [getNestedKeys, dictGet_dictSet_self, hi]

/-- `_set_nested` leaves lookups at paths prefix-incomparable with the
written path unchanged. -/
theorem getNestedKeys_setNestedKeys_frame :
    ∀ (ks p : List String) (res v res' : Val),
      setNestedKeys res ks v = .ok res' → ¬ ks <+: p → ¬ p <+: ks →
      getNestedKeys res' p = getNestedKeys res p := by
  intro ks
  induction ks with
  | nil =>
    intro p res v res' hset _ _
    cases res <;> cases hset
  | cons k rest ih =>
    intro p res v res' hset hp1 hp2
    cases res with
    | vnull => cases hset
    | vstr s => cases hset
    | vint n => cases hset
    | vobj fs =>
      cases p with
      | nil => exact absurd List.nil_prefix hp2
      | cons k' prest =>
        by_cases hk : k' = k
        · subst hk
          cases rest with
          | nil =>
            exact absurd (List.cons_prefix_cons.mpr ⟨rfl, List.nil_prefix⟩) hp1
          | cons k2 rest2 =>
            cases hrec : setNestedKeys ((dictGet fs k').getD (.vobj [])) (k2 :: rest2) v with
            | error e =>
              rw [show setNestedKeys (Val.vobj fs) (k' :: k2 :: rest2) v =
                (match setNestedKeys ((dictGet fs k').getD (.vobj [])) (k2 :: rest2) v with
                 | .ok c => Except.ok (Val.vobj (dictSet fs k' c))
                 | .error e => Except.error e) from rfl, hrec] at hset
              cases hset
            | ok c' =>
              rw [show setNestedKeys (Val.vobj fs) (k' :: k2 :: rest2) v =
                (match setNestedKeys ((dictGet fs k').getD (.vobj [])) (k2 :: rest2) v with
                 | .ok c => Except.ok (Val.vobj (dictSet fs k' c))
                 | .error e => Except.error e) from rfl, hrec] at hset
              have : res' = .vobj (dictSet fs k' c') := (Except.ok.inj hset).symm
              subst this
              have hnp1 : ¬ (k2 :: rest2) <+: prest := by
                intro h
                exact hp1 (List.cons_prefix_cons.mpr ⟨rfl, h⟩)
              have hnp2 : ¬ prest <+: (k2 :: rest2) := by
                intro h
                exact hp2 (List.cons_prefix_cons.mpr ⟨rfl, h⟩)
              have hlhs : getNestedKeys (Val.vobj (dictSet fs k' c')) (k' :: prest) =
                  getNestedKeys c' prest := by
                simp [getNestedKeys, dictGet_dictSet_self]
              rw [hlhs]
              cases hdg : dictGet fs k' with
              | some c =>
                have hr : getNestedKeys (Val.vobj fs) (k' :: prest) = getNestedKeys c prest := by
                  simp [getNestedKeys, hdg]
                rw [hr]
                have := ih prest ((dictGet fs k').getD (.vobj [])) v c' hrec hnp1 hnp2
                rw [hdg] at this
                simpa using this
              | none =>
                have hr : getNestedKeys (Val.vobj fs) (k' :: prest) = none := by
                  simp [getNestedKeys, hdg]
                rw [hr]
                have hfr := ih prest ((dictGet fs k').getD (.vobj [])) v c' hrec hnp1 hnp2
                rw [hdg] at hfr
                cases prest with
                | nil => exact absurd (List.cons_prefix_cons.mpr ⟨rfl, List.nil_prefix⟩) hp2
                | cons a b =>
                  rw [hfr]
                  simp [getNestedKeys, dictGet]
        · have hk' : k ≠ k' := fun h => hk h.symm
          cases rest with
          | nil =>
            have : res' = .vobj (dictSet fs k v) := (Except.ok.inj hset).symm
            subst this
            simp [getNestedKeys, dictGet_dictSet_ne fs k k' v hk']
          | cons k2 rest2 =>
            cases hrec : setNestedKeys ((dictGet fs k).getD (.vobj [])) (k2 :: rest2) v with
            | error e =>
              rw [show setNestedKeys (Val.vobj fs) (k :: k2 :: rest2) v =
                (match setNestedKeys ((dictGet fs k).getD (.vobj [])) (k2 :: rest2) v with
                 | .ok c => Except.ok (Val.vobj (dictSet fs k c))
                 | .error e => Except.error e) from rfl, hrec] at hset
              cases hset
            | ok c' =>
              rw [show setNestedKeys (Val.vobj fs) (k :: k2 :: rest2) v =
                (match setNestedKeys ((dictGet fs k).getD (.vobj [])) (k2 :: rest2) v with
                 | .ok c => Except.ok (Val.vobj (dictSet fs k c))
                 | .error e => Except.error e) from rfl, hrec] at hset
              have : res' = .vobj (dictSet fs k c') := (Except.ok.inj hset).symm
              subst this
              simp [getNestedKeys, dictGet_dictSet_ne fs k k' c' hk']

/-- After `_set_nested`, every strict prefix of the written path holds a
dict. -/
theorem getNestedKeys_setNestedKeys_prefix_obj :
    ∀ (p ks : List String) (res v res' : Val),
      setNestedKeys res ks v = .ok res' → p <+: ks → p ≠ ks →
      ∃ fs, getNestedKeys res' p = some (.vobj fs) := by
  intro p
  induction p with
  | nil =>
    intro ks res v res' hset _ _
    cases res with
    | vnull => cases ks <;> cases hset
    | vstr s => cases ks <;> cases hset
    | vint n => cases ks <;> cases hset
    | vobj fs =>
      cases ks with
      | nil => cases hset
      | cons k rest =>
        cases rest with
        | nil =>
          have : res' = .vobj (dictSet fs k v) := (Except.ok.inj hset).symm
          subst this
          exact ⟨dictSet fs k v, rfl⟩
        | cons k2 rest2 =>
          cases hrec : setNestedKeys ((dictGet fs k).getD (.vobj [])) (k2 :: rest2) v with
          | error e =>
            rw [show setNestedKeys (Val.vobj fs) (k :: k2 :: rest2) v =
              (match setNestedKeys ((dictGet fs k).getD (.vobj [])) (k2 :: rest2) v with
               | .ok c => Except.ok (Val.vobj (dictSet fs k c))
               | .error e => Except.error e) from rfl, hrec] at hset
            cases hset
          | ok c' =>
            rw [show setNestedKeys (Val.vobj fs) (k :: k2 :: rest2) v =
              (match setNestedKeys ((dictGet fs k).getD (.vobj [])) (k2 :: rest2) v with
               | .ok c => Except.ok (Val.vobj (dictSet fs k c))
               | .error e => Except.error e) from rfl, hrec] at hset
            have : res' = .vobj (dictSet fs k c') := (Except.ok.inj hset).symm
            subst this
            exact ⟨dictSet fs k c', rfl⟩
  | cons a p' ih =>
    intro ks res v res' hset hp hne
    obtain ⟨tail, htail⟩ := hp
    cases ks with
    | nil => cases res <;> cases hset
    | cons k rest =>
      have ha : a = k ∧ p' ++ tail = rest := by
        have := htail
        rw [List.cons_append] at this
        injection this with h1 h2
        exact ⟨h1, h2⟩
      obtain ⟨rfl, hrest⟩ := ha
      have hp' : p' <+: rest := ⟨tail, hrest⟩
      have hne' : p' ≠ rest := by
        intro h
        exact hne (by rw [h])
      cases res with
      | vnull => cases hset
      | vstr s => cases hset
      | vint n => cases hset
      | vobj fs =>
        cases rest with
        | nil => exact absurd (List.prefix_nil.mp hp') hne'
        | cons k2 rest2 =>
          cases hrec : setNestedKeys ((dictGet fs a).getD (.vobj [])) (k2 :: rest2) v with
          | error e =>
            rw [show setNestedKeys (Val.vobj fs) (a :: k2 :: rest2) v =
              (match setNestedKeys ((dictGet fs a).getD (.vobj [])) (k2 :: rest2) v with
               | .ok c => Except.ok (Val.vobj (dictSet fs a c))
               | .error e => Except.error e) from rfl, hrec] at hset
            cases hset
          | ok c' =>
            rw [show setNestedKeys (Val.vobj fs) (a :: k2 :: rest2) v =
              (match setNestedKeys ((dictGet fs a).getD (.vobj [])) (k2 :: rest2) v with
               | .ok c => Except.ok (Val.vobj (dictSet fs a c))
               | .error e => Except.error e) from rfl, hrec] at hset
            have : res' = .vobj (dictSet fs a c') := (Except.ok.inj hset).symm
            subst this
            obtain ⟨fs', hfs'⟩ := ih (k2 :: rest2) _ v c' hrec hp' hne'
            refine ⟨fs', ?_⟩
            simp [getNestedKeys, dictGet_dictSet_self, hfs']

/-- When some rule of the list writes to `ks`, `lastValueAux` ignores its
accumulator. -/
theorem lastValueAux_const_of_match (record : List (String × Val)) (ks : List String) :
    ∀ (rules : List Rule) (acc acc' : Option Val),
      (∃ r ∈ rules, TargetKeys r = ks ∧ ∃ v, ruleValue record r = .ok v ∧ v ≠ .vnull) →
      lastValueAux record ks rules acc = lastValueAux record ks rules acc' := by
  intro rules
  induction rules with
  | nil =>
    intro acc acc' hex
    obtain ⟨r, hmem, -⟩ := hex
    cases hmem
  | cons r rest ih =>
    intro acc acc' hex
    by_cases hrest : ∃ rr ∈ rest, TargetKeys rr = ks ∧
        ∃ v, ruleValue record rr = .ok v ∧ v ≠ .vnull
    · exact ih _ _ hrest
    · obtain ⟨r', hmem, htk, v, hrv, hv⟩ := hex
      rcases List.mem_cons.mp hmem with heq | hmem'
      · rw [heq] at hrv htk
        show lastValueAux record ks rest _ = lastValueAux record ks rest _
        simp only [hrv]
        rw [if_pos ⟨hv, htk⟩]
        rw [if_pos ⟨hv, htk⟩]
      · exact absurd ⟨r', hmem', htk, v, hrv, hv⟩ hrest

/-- When no rule of the list targets `ks`, `lastValueAux` returns its
accumulator. -/
theorem lastValueAux_const_of_no_match (record : List (String × Val)) (ks : List String) :
    ∀ (rules : List Rule) (acc : Option Val),
      (∀ r ∈ rules, TargetKeys r ≠ ks) →
      lastValueAux record ks rules acc = acc := by
  intro rules
  induction rules with
  | nil => intro acc _; rfl
  | cons r rest ih =>
    intro acc hno
    show lastValueAux record ks rest _ = acc
    have hupd : (match ruleValue record r with
        | .ok v => if v ≠ .vnull ∧ TargetKeys r = ks then some v else acc
        | .error _ => acc) = acc := by
      cases hrv : ruleValue record r with
      | ok v =>
        show (if v ≠ .vnull ∧ TargetKeys r = ks then some v else acc) = acc
        rw [if_neg]
        rintro ⟨-, htk⟩
        exact hno r (List.mem_cons_self r rest) htk
      | error e => rfl
    rw [hupd]
    exact ih acc (fun rr hmem => hno rr (List.mem_cons_of_mem r hmem))

/-- Invariant of the rule fold: with pairwise prefix-incomparable targets
(identical targets allowed) and all rule values resolving to non-`None`, the
fold succeeds and the final document reads, at every candidate target path,
the last written value — or the starting document's value when no rule in the
suffix targets that path. -/
theorem runRules_lookup :
    ∀ (record : List (String × Val)) (T : List (List String)) (rs : List Rule) (res : Val),
      (∀ r ∈ rs, TargetKeys r ∈ T) →
      (∀ ks ∈ T, ks ≠ []) →
      (∀ ks ∈ T, ∀ ks' ∈ T, ks ≠ ks' → ¬ ks <+: ks') →
      (∀ ks ∈ T, Writable res ks) →
      (∀ r ∈ rs, ∃ v, ruleValue record r = .ok v ∧ v ≠ .vnull) →
      ∃ doc, rs.foldlM (applyRule record) res = .ok doc ∧
        ∀ ks ∈ T,
          ((∃ r ∈ rs, TargetKeys r = ks) →
            getNestedKeys doc ks = lastValueFor record ks rs) ∧
          ((∀ r ∈ rs, TargetKeys r ≠ ks) → getNestedKeys doc ks = getNestedKeys res ks) := by
  intro record T rs
  induction rs with
  | nil =>
    intro res _ _ _ _ _
    refine ⟨res, rfl, ?_⟩
    intro ks _
    constructor
    · rintro ⟨r, hmem, -⟩
      cases hmem
    · intro _
      rfl
  | cons r rest ih =>
    intro res hT hTne hpf hwr hval
    obtain ⟨v, hrv, hv⟩ := hval r (List.mem_cons_self r rest)
    have htksT : TargetKeys r ∈ T := hT r (List.mem_cons_self r rest)
    have htne : TargetKeys r ≠ [] := hTne _ htksT
    obtain ⟨res1, hset⟩ :=
      setNestedKeys_ok_of_writable (TargetKeys r) res v htne (hwr _ htksT)
    have happly : applyRule record res r = .ok res1 := by
      unfold applyRule
      rw [hrv]
      show (if v ≠ .vnull then setNested res r.target v else .ok res) = .ok res1
      rw [if_pos hv]
      exact hset
    have hwr1 : ∀ ks ∈ T, Writable res1 ks := by
      intro ks hks p hp hpne w hgw
      by_cases hptks : p <+: TargetKeys r
      · by_cases hpeq : p = TargetKeys r
        · by_cases hteq : TargetKeys r = ks
          · exact absurd (hpeq.trans hteq) hpne
          · have h1 : TargetKeys r <+: ks := by rw [← hpeq]; exact hp
            exact absurd h1 (hpf _ htksT _ hks hteq)
        · obtain ⟨fs', hfs'⟩ :=
            getNestedKeys_setNestedKeys_prefix_obj p (TargetKeys r) res v res1 hset hptks hpeq
          rw [hfs'] at hgw
          exact ⟨fs', (Option.some.inj hgw).symm⟩
      · by_cases htksp : TargetKeys r <+: p
        · by_cases hteq : TargetKeys r = ks
          · have hpks : p = ks := by
              have h1 : p <+: ks := hp
              have h2 : ks <+: p := hteq ▸ htksp
              exact h1.eq_of_length (h1.length_le.antisymm h2.length_le)
            exact absurd hpks hpne
          · have : TargetKeys r <+: ks := htksp.trans hp
            exact absurd this (hpf _ htksT _ hks hteq)
        · have hfr := getNestedKeys_setNestedKeys_frame (TargetKeys r) p res v res1 hset
            htksp hptks
          rw [hfr] at hgw
          exact hwr ks hks p hp hpne w hgw
    obtain ⟨doc, hfold, hlook⟩ := ih res1
      (fun rr hmem => hT rr (List.mem_cons_of_mem r hmem)) hTne hpf hwr1
      (fun rr hmem => hval rr (List.mem_cons_of_mem r hmem))
    refine ⟨doc, ?_, ?_⟩
    · rw [List.foldlM_cons, happly]
      show rest.foldlM (applyRule record) res1 = .ok doc
      exact hfold
    · intro ks hks
      constructor
      · rintro ⟨r', hr', htk'⟩
        by_cases hrest : ∃ rr ∈ rest, TargetKeys rr = ks
        · have h1 := (hlook ks hks).1 hrest
          rw [h1]
          have hmatch : ∃ rr ∈ rest, TargetKeys rr = ks ∧
              ∃ v', ruleValue record rr = .ok v' ∧ v' ≠ .vnull := by
            obtain ⟨rr, hmem, htk⟩ := hrest
            obtain ⟨v', hv'⟩ := hval rr (List.mem_cons_of_mem r hmem)
            exact ⟨rr, hmem, htk, v', hv'⟩
          exact lastValueAux_const_of_match record ks rest none _ hmatch
        · have htkr : TargetKeys r = ks := by
            rcases List.mem_cons.mp hr' with heq | hmem'
            · subst heq; exact htk'
            · exact absurd ⟨r', hmem', htk'⟩ hrest
          have h2 := (hlook ks hks).2
            (fun rr hmem htk => hrest ⟨rr, hmem, htk⟩)
          have hv1 : getNestedKeys res1 ks = some v := by
            rw [← htkr]
            exact getNestedKeys_setNestedKeys_self (TargetKeys r) res v res1 hset
          rw [h2, hv1]
          have hstep : lastValueFor record ks (r :: rest) =
              lastValueAux record ks rest (some v) := by
            show lastValueAux record ks rest _ = _
            simp only [hrv]
            rw [if_pos ⟨hv, htkr⟩]
          rw [hstep,
            lastValueAux_const_of_no_match record ks rest (some v)
              (fun rr hmem htk => hrest ⟨rr, hmem, htk⟩)]
      · intro hnone
        have h2 := (hlook ks hks).2 (fun rr hmem => hnone rr (List.mem_cons_of_mem r hmem))
        have htkr : TargetKeys r ≠ ks := hnone r (List.mem_cons_self r rest)
        have hf : getNestedKeys res1 ks = getNestedKeys res ks :=
          getNestedKeys_setNestedKeys_frame (TargetKeys r) ks res v res1 hset
            (hpf _ htksT _ hks htkr)
            (hpf _ hks _ htksT (fun h => htkr h.symm))
        rw [h2, hf]

/-- The transformer on two rules whose values resolve and whose writes
succeed. -/
theorem transformRecord_two (r1 r2 : Rule) (record : List (String × Val))
    (v1 v2 d1 d2 : Val)
    (h1 : ruleValue record r1 = .ok v1) (hv1 : v1 ≠ .vnull)
    (h2 : ruleValue record r2 = .ok v2) (hv2 : v2 ≠ .vnull)
    (hs1 : setNested (.vobj []) r1.target v1 = .ok d1)
    (hs2 : setNested d1 r2.target v2 = .ok d2) :
    transformRecord [r1, r2] record = .ok d2 := by
  have ha1 : applyRule record (.vobj []) r1 = .ok d1 := by
    unfold applyRule
    rw [h1]
    show (if v1 ≠ .vnull then setNested (.vobj []) r1.target v1 else .ok (.vobj [])) = .ok d1
    rw [if_pos hv1]
    exact hs1
  have ha2 : applyRule record d1 r2 = .ok d2 := by
    unfold applyRule
    rw [h2]
    show (if v2 ≠ .vnull then setNested d1 r2.target v2 else .ok d1) = .ok d2
    rw [if_pos hv2]
    exact hs2
  simp only [transformRecord, List.foldlM_cons, List.foldlM_nil]
  rw [ha1]
  show (applyRule record d1 r2 >>= fun b => pure b) = .ok d2
  rw [ha2]
  rfl

/-- The transformer, on prefix-incomparable targets with resolving values,
succeeds and leaves each rule's target holding the last matching rule's
value. -/
theorem transformRecord_lookup (rules : List Rule) (record : List (String × Val))
    (hpf : ∀ r ∈ rules, ∀ r' ∈ rules,
      TargetKeys r ≠ TargetKeys r' → ¬ TargetKeys r <+: TargetKeys r')
    (hval : ∀ r ∈ rules, ∃ v, ruleValue record r = .ok v ∧ v ≠ .vnull) :
    ∃ doc, transformRecord rules record = .ok doc ∧
      ∀ r ∈ rules, getNestedKeys doc (TargetKeys r) =
        lastValueFor record (TargetKeys r) rules := by
  obtain ⟨doc, hfold, hlook⟩ := runRules_lookup record (rules.map TargetKeys) rules (.vobj [])
    (fun r h => List.mem_map_of_mem _ h)
    (by
      intro ks hks
      obtain ⟨r, -, rfl⟩ := List.mem_map.mp hks
      exact TargetKeys_ne_nil r)
    (by
      intro ks hks ks' hks' hne
      obtain ⟨r, hr, rfl⟩ := List.mem_map.mp hks
      obtain ⟨r', hr', rfl⟩ := List.mem_map.mp hks'
      exact hpf r hr r' hr' hne)
    (by
      intro ks _ p _ _ w hgw
      cases p with
      | nil => exact ⟨[], (Option.some.inj hgw).symm⟩
      | cons a b => simp [getNestedKeys, dictGet] at hgw)
    hval
  refine ⟨doc, hfold, ?_⟩
  intro r hr
  exact (hlook (TargetKeys r) (List.mem_map_of_mem _ hr)).1 ⟨r, hr, rfl⟩

/-- **C2** (corrected by `C2_counterexample`).  First conjunct: two rules with
the sibling targets `a.b` and `a.c` produce, in either declaration order, one
document with a single nested object at `a` holding both fields (the two
orders differ only in dict insertion order, invisible to Python `==`).
Second conjunct: whenever no rule's target key path is a strict prefix of
another rule's (identical targets allowed) and every rule's value resolves,
the transformer succeeds and the value found at each rule's target is the
last matching rule's value — so declaration order is irrelevant except
last-write-wins on identical targets.  Third conjunct: swapping two rules
with distinct, prefix-incomparable targets changes neither target's value in
the final document. -/
theorem C2_path_merge_and_order :
    (∀ (s1 s2 : String) (v1 v2 : Val) (record : List (String × Val)),
      v1 ≠ .vnull → v2 ≠ .vnull →
      (dictGet record s1).getD .vnull = v1 → (dictGet record s2).getD .vnull = v2 →
      transformRecord [{source := s1, target := "a.b"}, {source := s2, target := "a.c"}]
          record = .ok (.vobj [("a", .vobj [("b", v1), ("c", v2)])]) ∧
      transformRecord [{source := s2, target := "a.c"}, {source := s1, target := "a.b"}]
          record = .ok (.vobj [("a", .vobj [("c", v2), ("b", v1)])])) ∧
    (∀ (rules : List Rule) (record : List (String × Val)),
      (∀ r ∈ rules, ∀ r' ∈ rules,
        TargetKeys r ≠ TargetKeys r' → ¬ TargetKeys r <+: TargetKeys r') →
      (∀ r ∈ rules, ∃ v, ruleValue record r = .ok v ∧ v ≠ .vnull) →
      ∃ doc, transformRecord rules record = .ok doc ∧
        ∀ r ∈ rules, getNestedKeys doc (TargetKeys r) =
          lastValueFor record (TargetKeys r) rules) ∧
    (∀ (r1 r2 : Rule) (record : List (String × Val)),
      TargetKeys r1 ≠ TargetKeys r2 →
      ¬ TargetKeys r1 <+: TargetKeys r2 → ¬ TargetKeys r2 <+: TargetKeys r1 →
      (∃ v, ruleValue record r1 = .ok v ∧ v ≠ .vnull) →
      (∃ v, ruleValue record r2 = .ok v ∧ v ≠ .vnull) →
      ∃ d1 d2, transformRecord [r1, r2] record = .ok d1 ∧
        transformRecord [r2, r1] record = .ok d2 ∧
        getNestedKeys d1 (TargetKeys r1) = getNestedKeys d2 (TargetKeys r1) ∧
        getNestedKeys d1 (TargetKeys r2) = getNestedKeys d2 (TargetKeys r2)) := by
  have pairPf : ∀ (a b : Rule),
      TargetKeys a ≠ TargetKeys b →
      ¬ TargetKeys a <+: TargetKeys b → ¬ TargetKeys b <+: TargetKeys a →
      ∀ r ∈ [a, b], ∀ r' ∈ [a, b],
        TargetKeys r ≠ TargetKeys r' → ¬ TargetKeys r <+: TargetKeys r' := by
    intro a b _ hab hba r hr r' hr' hneq
    rcases List.mem_cons.mp hr with rfl | hr
    · rcases List.mem_cons.mp hr' with rfl | hr'
      · exact absurd rfl hneq
      · have := List.mem_singleton.mp hr'
        subst this
        exact hab
    · have := List.mem_singleton.mp hr
      subst this
      rcases List.mem_cons.mp hr' with rfl | hr'
      · exact hba
      · have := List.mem_singleton.mp hr'
        subst this
        exact absurd rfl hneq
  have pairVal : ∀ (a b : Rule) (record : List (String × Val)) (va vb : Val),
      ruleValue record a = .ok va → va ≠ .vnull →
      ruleValue record b = .ok vb → vb ≠ .vnull →
      ∀ r ∈ [a, b], ∃ v, ruleValue record r = .ok v ∧ v ≠ .vnull := by
    intro a b record va vb hva hva' hvb hvb' r hr
    rcases List.mem_cons.mp hr with rfl | hr
    · exact ⟨va, hva, hva'⟩
    · have := List.mem_singleton.mp hr
      subst this
      exact ⟨vb, hvb, hvb'⟩
  refine ⟨?_, ?_, ?_⟩
  · intro s1 s2 v1 v2 record hv1 hv2 h1 h2
    have hrv1 : ruleValue record {source := s1, target := "a.b"} = .ok v1 := by
      simp [ruleValue, h1, hv1, Bind.bind, Except.bind]
    have hrv2 : ruleValue record {source := s2, target := "a.c"} = .ok v2 := by
      simp [ruleValue, h2, hv2, Bind.bind, Except.bind]
    constructor
    · exact transformRecord_two _ _ record v1 v2 _ _ hrv1 hv1 hrv2 hv2 rfl rfl
    · exact transformRecord_two _ _ record v2 v1 _ _ hrv2 hv2 hrv1 hv1 rfl rfl
  · intro rules record hpf hval
    exact transformRecord_lookup rules record hpf hval
  · intro r1 r2 record hne h12 h21 hex1 hex2
    obtain ⟨v1, hrv1, hv1⟩ := hex1
    obtain ⟨v2, hrv2, hv2⟩ := hex2
    obtain ⟨d1, hd1, hl1⟩ := transformRecord_lookup [r1, r2] record
      (pairPf r1 r2 hne h12 h21) (pairVal r1 r2 record v1 v2 hrv1 hv1 hrv2 hv2)
    obtain ⟨d2, hd2, hl2⟩ := transformRecord_lookup [r2, r1] record
      (pairPf r2 r1 (fun h => hne h.symm) h21 h12)
      (pairVal r2 r1 record v2 v1 hrv2 hv2 hrv1 hv1)
    refine ⟨d1, d2, hd1, hd2, ?_, ?_⟩
    · have e1 := hl1 r1 (List.mem_cons_self r1 [r2])
      have e2 := hl2 r1 (by simp)
      rw [e1, e2]
      have c1 : lastValueFor record (TargetKeys r1) [r1, r2] = some v1 := by
        simp [lastValueFor, lastValueAux, hrv1, hrv2, hv1, Ne.symm hne]
      have c2 : lastValueFor record (TargetKeys r1) [r2, r1] = some v1 := by
        simp [lastValueFor, lastValueAux, hrv1, hrv2, hv1, Ne.symm hne]
      rw [c1, c2]
    · have e1 := hl1 r2 (by simp)
      have e2 := hl2 r2 (List.mem_cons_self r2 [r1])
      rw [e1, e2]
      have c1 : lastValueFor record (TargetKeys r2) [r1, r2] = some v2 := by
        simp [lastValueFor, lastValueAux, hrv1, hrv2, hv2, hne]
      have c2 : lastValueFor record (TargetKeys r2) [r2, r1] = some v2 := by
        simp [lastValueFor, lastValueAux, hrv1, hrv2, hv2, hne]
      rw [c1, c2]

/-- Witness for `C2_path_merge_and_order`: sibling targets `a.b`/`a.c` on a
concrete record, in both orders. -/
theorem C2_witness :
    transformRecord [{source := "s1", target := "a.b"}, {source := "s2", target := "a.c"}]
        [("s1", .vstr "v1"), ("s2", .vstr "v2")] =
      .ok (.vobj [("a", .vobj [("b", .vstr "v1"), ("c", .vstr "v2")])]) ∧
    transformRecord [{source := "s2", target := "a.c"}, {source := "s1", target := "a.b"}]
        [("s1", .vstr "v1"), ("s2", .vstr "v2")] =
      .ok (.vobj [("a", .vobj [("c", .vstr "v2"), ("b", .vstr "v1")])]) :=
  C2_path_merge_and_order.1 "s1" "s2" (.vstr "v1") (.vstr "v2")
    [("s1", .vstr "v1"), ("s2", .vstr "v2")]
    (by decide) (by decide) (by decide) (by decide)

/-- **C2 counterexample**: rules with the distinct targets `a` and `a.b`, both
sourced with string values.  In the order `[a.b, a]` the transformer returns a
document; in the order `[a, a.b]` it raises (`_set_nested` walks into the
scalar written at `a`).  Declaration order thus affects the outcome although
the two targets are not identical — refuting "order does not affect the final
merged document structure except where two rules have the identical target
path". -/
theorem C2_counterexample :
    transformRecord [{source := "s2", target := "a.b"}, {source := "s1", target := "a"}]
        [("s1", .vstr "v"), ("s2", .vstr "w")] = .ok (.vobj [("a", .vstr "v")]) ∧
    transformRecord [{source := "s1", target := "a"}, {source := "s2", target := "a.b"}]
        [("s1", .vstr "v"), ("s2", .vstr "w")] =
      .error (.typeError "cannot assign into a non-dict value") ∧
    ("a" : String) ≠ "a.b" := by
  exact ⟨by decide, by decide, by decide⟩

end NMISEcopass
